import Mathlib

/-!
Shallow embedding of the LCA_With_Fishbase tool (repository
Computational-Biology-OceanOmics/LCA_With_Fishbase) and proofs about it.

The embedding follows the Python sources:
* `calculateLCAWithFishbase_Claude.py` — classes `LCACalculator`
  (`calculate_lca`), `NCBITaxdumpParser` (`build_lineage`),
  `TaxonomicAssigner` (`find_species_info`, `_search_fishbase`,
  `_search_worms`), `BLASTLCAAnalyzer` (`calculate_lca_assignments`).
* `calculateLCAWithFishbase.py` — the legacy script's `get_lca` and its
  main-loop genus/synonym scan.

Modelling conventions:
* Python floats (percent identities) are modelled as exact rationals `ℚ`;
  `statistics.mean` is the exact arithmetic mean `sum / length`.
* Python dicts are modelled as association lists with first-match lookup.
* Python sets of strings are modelled as `Finset String`; `list(s)[0]` on a
  singleton set is modelled as the head of the deduplicated element list.
* Code that can raise is modelled with `Option`/`Except` (a raised
  exception becomes `none` / `.error`).
-/

namespace LCAFishbase

/-! ### Data model (`TaxonomicLineage`, `LCAResult`) -/

/-- `TaxonomicLineage` dataclass: a complete five-rank taxonomic lineage. -/
structure TaxonomicLineage where
  class_name : String
  order : String
  family : String
  genus : String
  species : String
deriving DecidableEq, Repr

/-- `TaxonomicLineage.to_list`: convert to a list of (rank, name) tuples. -/
def TaxonomicLineage.to_list (l : TaxonomicLineage) : List (String × String) :=
  [("C", l.class_name), ("O", l.order), ("F", l.family),
   ("G", l.genus), ("S", l.species)]

/-- `LCAResult` dataclass: result of the LCA calculation.  The Python
`included_taxa` is a `set`, modelled as a `Finset`. -/
@[ext]
structure LCAResult where
  percentage : ℚ
  assignment : String
  included_taxa : Finset String
deriving DecidableEq

/-! ### `LCACalculator.calculate_lca` -/

/-- Python's lexicographic order on `(pident, taxon)` tuples, as used by
`sorted(entries)`. -/
def pyTupleLe (a b : ℚ × String) : Prop :=
  a.1 < b.1 ∨ (a.1 = b.1 ∧ a.2 ≤ b.2)

instance : DecidableRel pyTupleLe := fun a b =>
  inferInstanceAs (Decidable (a.1 < b.1 ∨ (a.1 = b.1 ∧ a.2 ≤ b.2)))

instance : IsTotal (ℚ × String) pyTupleLe where
  total a b := by
    rcases lt_trichotomy a.1 b.1 with h | h | h
    · exact Or.inl (Or.inl h)
    · rcases le_total a.2 b.2 with h2 | h2
      · exact Or.inl (Or.inr ⟨h, h2⟩)
      · exact Or.inr (Or.inr ⟨h.symm, h2⟩)
    · exact Or.inr (Or.inl h)

instance : IsTrans (ℚ × String) pyTupleLe where
  trans a b c hab hbc := by
    rcases hab with h1 | ⟨h1, h1'⟩ <;> rcases hbc with h2 | ⟨h2, h2'⟩
    · exact Or.inl (h1.trans h2)
    · exact Or.inl (h2 ▸ h1)
    · exact Or.inl (h1 ▸ h2)
    · exact Or.inr ⟨h1.trans h2, h1'.trans h2'⟩

instance : IsAntisymm (ℚ × String) pyTupleLe where
  antisymm a b hab hba := by
    rcases hab with h1 | ⟨h1, h1'⟩ <;> rcases hba with h2 | ⟨h2, h2'⟩
    · exact absurd (h1.trans h2) (lt_irrefl _)
    · exact absurd h1 (h2 ▸ lt_irrefl _)
    · exact absurd h2 (h1 ▸ lt_irrefl _)
    · exact Prod.ext h1 (le_antisymm h1' h2')

/-- Python's `sorted` on `(pident, taxon)` tuples: a stable sort by the
lexicographic tuple order. -/
def pySorted (l : List (ℚ × String)) : List (ℚ × String) :=
  l.insertionSort pyTupleLe

/-- The maximum percent identity of an entry list (0 for the empty list,
which the code never queries). -/
def maxScore : List (ℚ × String) → ℚ
  | [] => 0
  | e :: rest => rest.foldl (fun a b => max a b.1) e.1

/-- `LCACalculator.calculate_lca`.  Mirrors the Python body: sort the
entries, take the top percentage from the last sorted entry, keep every
entry at or above `top - cutoff`, average the kept percentages, and assign
the sole surviving taxon or the sentinel `"dropped"`.  The empty input
returns the `"no_hits"` result.  `list(filtered_taxa)[0]` on the
singleton set is the head of the deduplicated taxon list. -/
def calculate_lca (cutoff : ℚ) (entries : List (ℚ × String)) : LCAResult :=
  if entries = [] then { percentage := 0, assignment := "no_hits", included_taxa := ∅ }
  else
    let sorted_entries := pySorted entries
    let top_percentage := (sorted_entries.getLast?.getD (0, "")).1
    let percentage_threshold := top_percentage - cutoff
    let included := sorted_entries.filter fun e => decide (percentage_threshold ≤ e.1)
    let filtered_taxa := (included.map Prod.snd).dedup
    let valid_percentages := included.map Prod.fst
    let mean_percentage := valid_percentages.sum / (valid_percentages.length : ℚ)
    let assignment :=
      if filtered_taxa.length = 1 then filtered_taxa.headD "dropped" else "dropped"
    { percentage := mean_percentage
    , assignment := assignment
    , included_taxa := filtered_taxa.toFinset }

/-- Legacy script's `get_lca` (module `calculateLCAWithFishbase.py`).  On an
empty input `sorted_spec[-1]` raises `IndexError`, modelled as `none`. -/
def get_lca (cutoff : ℚ) (entries : List (ℚ × String)) :
    Option (ℚ × String × Finset String) :=
  match entries with
  | [] => none
  | _ :: _ =>
    let sorted_spec := pySorted entries
    let top_perc := (sorted_spec.getLast?.getD (0, "")).1
    let perc_range := top_perc - cutoff
    let kept := sorted_spec.filter fun s => decide (perc_range ≤ s.1)
    let new_spec := (kept.map Prod.snd).dedup
    let all_percentages := kept.map Prod.fst
    let lca_perc := all_percentages.sum / (all_percentages.length : ℚ)
    let lca := if new_spec.length = 1 then new_spec.headD "dropped" else "dropped"
    some (lca_perc, lca, new_spec.toFinset)

/-- The entries that survive the cutoff window, written directly over the
unsorted input: every entry whose percent identity is at least
`maxScore entries - cutoff` (inclusive boundary). -/
def includedEntries (cutoff : ℚ) (entries : List (ℚ × String)) : List (ℚ × String) :=
  entries.filter fun e => decide (maxScore entries - cutoff ≤ e.1)

/-! ### Helper lemmas about `pySorted`, `maxScore` and `calculate_lca` -/

lemma pyTupleLe_fst_le {a b : ℚ × String} (h : pyTupleLe a b) : a.1 ≤ b.1 := by
  rcases h with h | ⟨h, _⟩
  · exact le_of_lt h
  · exact le_of_eq h

lemma foldl_max_init_le (l : List (ℚ × String)) (a : ℚ) :
    a ≤ l.foldl (fun x b => max x b.1) a := by
  induction l generalizing a with
  | nil => exact le_refl a
  | cons e t ih => exact le_trans (le_max_left a e.1) (ih (max a e.1))

lemma foldl_max_mem_le (l : List (ℚ × String)) {e : ℚ × String} (he : e ∈ l) :
    ∀ a : ℚ, e.1 ≤ l.foldl (fun x b => max x b.1) a := by
  induction l with
  | nil => cases he
  | cons b t ih =>
    intro a
    rcases List.mem_cons.mp he with rfl | h
    · exact le_trans (le_max_right a e.1) (foldl_max_init_le t (max a e.1))
    · exact ih h (max a b.1)

lemma foldl_max_cases (l : List (ℚ × String)) (a : ℚ) :
    l.foldl (fun x b => max x b.1) a = a ∨
      ∃ e ∈ l, l.foldl (fun x b => max x b.1) a = e.1 := by
  induction l generalizing a with
  | nil => exact Or.inl rfl
  | cons b t ih =>
    rcases ih (max a b.1) with h | ⟨e, he, h⟩
    · rcases max_choice a b.1 with hm | hm
      · exact Or.inl (by simpa [hm] using h)
      · exact Or.inr ⟨b, List.mem_cons_self b t, by simpa [hm] using h⟩
    · exact Or.inr ⟨e, List.mem_cons_of_mem b he, h⟩

lemma maxScore_ub {l : List (ℚ × String)} {e : ℚ × String} (he : e ∈ l) :
    e.1 ≤ maxScore l := by
  cases l with
  | nil => cases he
  | cons a t =>
    rcases List.mem_cons.mp he with rfl | h
    · exact foldl_max_init_le t e.1
    · exact foldl_max_mem_le t h a.1

lemma maxScore_attained {l : List (ℚ × String)} (h : l ≠ []) :
    ∃ e ∈ l, e.1 = maxScore l := by
  cases l with
  | nil => exact absurd rfl h
  | cons a t =>
    rcases foldl_max_cases t a.1 with hc | ⟨e, he, hc⟩
    · exact ⟨a, List.mem_cons_self a t, hc.symm⟩
    · exact ⟨e, List.mem_cons_of_mem a he, hc.symm⟩

lemma pySorted_perm (l : List (ℚ × String)) : (pySorted l).Perm l :=
  List.perm_insertionSort pyTupleLe l

lemma pySorted_ne_nil {l : List (ℚ × String)} (h : l ≠ []) : pySorted l ≠ [] := by
  intro h0
  exact h (List.Perm.eq_nil (h0 ▸ (pySorted_perm l).symm))

/-- The percentage taken from the last element of the sorted entry list is
the maximum percent identity of the entries. -/
lemma pySorted_top {l : List (ℚ × String)} (h : l ≠ []) :
    ((pySorted l).getLast?.getD (0, "")).1 = maxScore l := by
  have hs : pySorted l ≠ [] := pySorted_ne_nil h
  have hlast : (pySorted l).getLast? = some ((pySorted l).getLast hs) :=
    List.getLast?_eq_getLast _ hs
  rw [hlast, Option.getD_some]
  set last := (pySorted l).getLast hs with hlastdef
  have hmem : last ∈ l := (pySorted_perm l).subset (List.getLast_mem hs)
  refine le_antisymm (maxScore_ub hmem) ?_
  obtain ⟨e, hel, he⟩ := maxScore_attained h
  have hes : e ∈ pySorted l := (pySorted_perm l).mem_iff.mpr hel
  have hsorted : List.Sorted pyTupleLe (pySorted l) :=
    List.sorted_insertionSort pyTupleLe l
  have hsplit : (pySorted l).dropLast ++ [last] = pySorted l :=
    List.dropLast_append_getLast hs
  rw [← hsplit] at hes hsorted
  rcases List.mem_append.mp hes with hdl | hl
  · have := (List.pairwise_append.mp hsorted).2.2 e hdl last (List.mem_singleton_self last)
    exact he ▸ pyTupleLe_fst_le this
  · rw [List.mem_singleton.mp hl] at he
    exact le_of_eq he.symm

lemma dedup_toFinset (l : List String) : l.dedup.toFinset = l.toFinset :=
  List.toFinset.ext fun x => by simp [List.mem_dedup]

/-- The set of included taxa equals the taxa of the entries surviving the
cutoff window, taken over the unsorted input. -/
lemma calc_taxa_eq (cutoff : ℚ) (entries : List (ℚ × String)) (h : entries ≠ []) :
    (calculate_lca cutoff entries).included_taxa =
      ((includedEntries cutoff entries).map Prod.snd).toFinset := by
  simp only [calculate_lca, if_neg h, includedEntries]
  rw [pySorted_top h, dedup_toFinset]
  exact List.toFinset_eq_of_perm _ _ (((pySorted_perm entries).filter _).map Prod.snd)

/-- The representative percentage is the arithmetic mean of the surviving
entries' percent identities, taken over the unsorted input. -/
lemma calc_percentage_eq (cutoff : ℚ) (entries : List (ℚ × String)) (h : entries ≠ []) :
    (calculate_lca cutoff entries).percentage =
      ((includedEntries cutoff entries).map Prod.fst).sum /
        (((includedEntries cutoff entries).map Prod.fst).length : ℚ) := by
  simp only [calculate_lca, if_neg h, includedEntries]
  rw [pySorted_top h]
  have hperm := ((pySorted_perm entries).filter
    (fun e => decide (maxScore entries - cutoff ≤ e.1))).map Prod.fst
  rw [hperm.sum_eq, hperm.length_eq]

lemma calc_assign_singleton (cutoff : ℚ) (entries : List (ℚ × String))
    (h : entries ≠ []) (t : String)
    (ht : (calculate_lca cutoff entries).included_taxa = {t}) :
    (calculate_lca cutoff entries).assignment = t := by
  have htaxa : (calculate_lca cutoff entries).included_taxa =
      ((pySorted entries |>.filter fun e =>
        decide (((pySorted entries).getLast?.getD (0, "")).1 - cutoff ≤ e.1)).map
          Prod.snd).dedup.toFinset := by
    simp only [calculate_lca, if_neg h]
  set L := ((pySorted entries |>.filter fun e =>
    decide (((pySorted entries).getLast?.getD (0, "")).1 - cutoff ≤ e.1)).map
      Prod.snd).dedup with hL
  have hnodup : L.Nodup := List.nodup_dedup _
  have hcard : L.toFinset.card = L.length := by
    rw [List.card_toFinset, hnodup.dedup]
  have hlen : L.length = 1 := by
    rw [← hcard, ← htaxa, ht, Finset.card_singleton]
  obtain ⟨x, hx⟩ := List.length_eq_one.mp hlen
  have hxt : x = t := by
    have : L.toFinset = {t} := htaxa ▸ ht
    rw [hx] at this
    simpa using Finset.singleton_inj.mp (by simpa using this)
  simp only [calculate_lca, if_neg h]
  rw [← hL, hx, hxt]
  simp

lemma calc_assign_dropped (cutoff : ℚ) (entries : List (ℚ × String))
    (h : entries ≠ []) (hc : (calculate_lca cutoff entries).included_taxa.card ≠ 1) :
    (calculate_lca cutoff entries).assignment = "dropped" := by
  have htaxa : (calculate_lca cutoff entries).included_taxa =
      ((pySorted entries |>.filter fun e =>
        decide (((pySorted entries).getLast?.getD (0, "")).1 - cutoff ≤ e.1)).map
          Prod.snd).dedup.toFinset := by
    simp only [calculate_lca, if_neg h]
  set L := ((pySorted entries |>.filter fun e =>
    decide (((pySorted entries).getLast?.getD (0, "")).1 - cutoff ≤ e.1)).map
      Prod.snd).dedup with hL
  have hnodup : L.Nodup := List.nodup_dedup _
  have hlen : L.length ≠ 1 := by
    intro h1
    apply hc
    rw [htaxa, List.card_toFinset, hnodup.dedup]
    exact h1
  simp only [calculate_lca, if_neg h]
  rw [← hL, if_neg hlen]

/-- Membership in the included-taxa set, phrased over the raw entries. -/
lemma calc_taxa_mem (cutoff : ℚ) (entries : List (ℚ × String)) (h : entries ≠ [])
    (t : String) :
    (t ∈ (calculate_lca cutoff entries).included_taxa ↔
      ∃ e ∈ entries, maxScore entries - cutoff ≤ e.1 ∧ e.2 = t) := by
  rw [calc_taxa_eq cutoff entries h, List.mem_toFinset, includedEntries]
  simp only [List.mem_map, List.mem_filter, decide_eq_true_eq]
  constructor
  · rintro ⟨e, ⟨he, hp⟩, ht⟩
    exact ⟨e, he, hp, ht⟩
  · rintro ⟨e, he, hp, ht⟩
    exact ⟨e, ⟨he, hp⟩, ht⟩

lemma calc_taxa_nonempty (cutoff : ℚ) (entries : List (ℚ × String))
    (h : entries ≠ []) (hcut : 0 ≤ cutoff) :
    (calculate_lca cutoff entries).included_taxa ≠ ∅ := by
  obtain ⟨e, he, hmax⟩ := maxScore_attained h
  have : e.2 ∈ (calculate_lca cutoff entries).included_taxa :=
    (calc_taxa_mem cutoff entries h e.2).mpr
      ⟨e, he, hmax ▸ sub_le_self e.1 hcut, rfl⟩
  exact Finset.ne_empty_of_mem this

lemma maxScore_perm {l1 l2 : List (ℚ × String)} (h : l1.Perm l2) :
    maxScore l1 = maxScore l2 := by
  rcases eq_or_ne l1 [] with rfl | h1
  · rw [h.symm.eq_nil]
  · have h2 : l2 ≠ [] := fun h0 => h1 (h0 ▸ h).eq_nil
    apply le_antisymm
    · obtain ⟨e, he, hme⟩ := maxScore_attained h1
      exact hme ▸ maxScore_ub (h.subset he)
    · obtain ⟨e, he, hme⟩ := maxScore_attained h2
      exact hme ▸ maxScore_ub (h.symm.subset he)

lemma includedEntries_perm (cutoff : ℚ) {l1 l2 : List (ℚ × String)}
    (h : l1.Perm l2) :
    (includedEntries cutoff l1).Perm (includedEntries cutoff l2) := by
  unfold includedEntries
  rw [maxScore_perm h]
  exact h.filter _

/-- The legacy `get_lca` and the rewritten `calculate_lca` agree on every
non-empty entry list (the shared consensus logic is identical). -/
lemma get_lca_eq_calculate (cutoff : ℚ) (entries : List (ℚ × String))
    (h : entries ≠ []) :
    get_lca cutoff entries =
      some ((calculate_lca cutoff entries).percentage,
        (calculate_lca cutoff entries).assignment,
        (calculate_lca cutoff entries).included_taxa) := by
  cases entries with
  | nil => exact absurd rfl h
  | cons e t => rfl

/-! ### Claims about the LCA consensus engine -/

/-- C1: for every non-empty entry list and cutoff ≥ 0, a taxon is included
in the consensus exactly when one of its entries scores at least
(max score − cutoff), with an inclusive boundary, and the included-taxa set
is non-empty. -/
theorem calculate_lca_inclusion_window (cutoff : ℚ) (entries : List (ℚ × String))
    (hne : entries ≠ []) (hcut : 0 ≤ cutoff) :
    (∀ t, t ∈ (calculate_lca cutoff entries).included_taxa ↔
      ∃ e ∈ entries, maxScore entries - cutoff ≤ e.1 ∧ e.2 = t) ∧
    (calculate_lca cutoff entries).included_taxa ≠ ∅ :=
  ⟨fun t => calc_taxa_mem cutoff entries hne t,
   calc_taxa_nonempty cutoff entries hne hcut⟩

theorem calculate_lca_inclusion_window_witness :
    ("Gobius cobitis" ∈
        (calculate_lca 1 [((95 : ℚ), "Gobius niger"), ((94 : ℚ), "Gobius cobitis")]).included_taxa ↔
      ∃ e ∈ [((95 : ℚ), "Gobius niger"), ((94 : ℚ), "Gobius cobitis")],
        maxScore [((95 : ℚ), "Gobius niger"), ((94 : ℚ), "Gobius cobitis")] - 1 ≤ e.1 ∧
          e.2 = "Gobius cobitis") ∧
    (calculate_lca 1 [((95 : ℚ), "Gobius niger"), ((94 : ℚ), "Gobius cobitis")]).included_taxa ≠ ∅ :=
  ⟨(calculate_lca_inclusion_window 1
      [((95 : ℚ), "Gobius niger"), ((94 : ℚ), "Gobius cobitis")]
      (by decide) (by decide)).1 "Gobius cobitis",
   (calculate_lca_inclusion_window 1
      [((95 : ℚ), "Gobius niger"), ((94 : ℚ), "Gobius cobitis")]
      (by decide) (by decide)).2⟩

/-- C2 counterexample: a single entry whose taxon is literally named
"dropped" yields assignment "dropped" while the included-taxa set has
exactly one member, so `assignment = "dropped"` does not imply
`|includedTaxa| > 1` as the claim states. -/
theorem calculate_lca_dropped_name_cex :
    (calculate_lca 1 [((95 : ℚ), "dropped")]).assignment = "dropped" ∧
    (calculate_lca 1 [((95 : ℚ), "dropped")]).included_taxa = {"dropped"} ∧
    ¬ 1 < (calculate_lca 1 [((95 : ℚ), "dropped")]).included_taxa.card := by
  have h : calculate_lca 1 [((95 : ℚ), "dropped")] =
      { percentage := 95, assignment := "dropped", included_taxa := {"dropped"} } := by
    norm_num [calculate_lca, pySorted, List.insertionSort, List.orderedInsert, pyTupleLe,
      List.filter, List.dedup, List.headD, List.pwFilter]
  rw [h]
  exact ⟨rfl, rfl, by decide⟩

/-- C2 (amended): provided no entry's taxon is the literal string
"dropped" (and the cutoff is non-negative, as the CLI enforces), the
assignment is "dropped" iff more than one distinct taxon survives, and the
assignment is the sole member iff exactly one distinct taxon survives. -/
theorem calculate_lca_assignment_rule (cutoff : ℚ) (entries : List (ℚ × String))
    (hne : entries ≠ []) (hcut : 0 ≤ cutoff)
    (hdrop : ∀ e ∈ entries, e.2 ≠ "dropped") :
    ((calculate_lca cutoff entries).assignment = "dropped" ↔
      1 < (calculate_lca cutoff entries).included_taxa.card) ∧
    ((∃ t, (calculate_lca cutoff entries).included_taxa = {t} ∧
        (calculate_lca cutoff entries).assignment = t) ↔
      (calculate_lca cutoff entries).included_taxa.card = 1) := by
  have hpos : 0 < (calculate_lca cutoff entries).included_taxa.card :=
    Finset.card_pos.mpr (Finset.nonempty_iff_ne_empty.mpr
      (calc_taxa_nonempty cutoff entries hne hcut))
  have hmem_ne : ∀ t ∈ (calculate_lca cutoff entries).included_taxa, t ≠ "dropped" := by
    intro t ht
    obtain ⟨e, he, _, het⟩ := (calc_taxa_mem cutoff entries hne t).mp ht
    exact het ▸ hdrop e he
  constructor
  · constructor
    · intro hd
      by_contra hlt
      have hcard : (calculate_lca cutoff entries).included_taxa.card = 1 :=
        le_antisymm (Nat.not_lt.mp hlt) hpos
      obtain ⟨t, ht⟩ := Finset.card_eq_one.mp hcard
      have := calc_assign_singleton cutoff entries hne t ht
      exact hmem_ne t (ht ▸ Finset.mem_singleton_self t) (this ▸ hd)
    · intro h1
      exact calc_assign_dropped cutoff entries hne (Nat.ne_of_lt h1).symm
  · constructor
    · rintro ⟨t, ht, _⟩
      rw [ht]
      exact Finset.card_singleton t
    · intro h1
      obtain ⟨t, ht⟩ := Finset.card_eq_one.mp h1
      exact ⟨t, ht, calc_assign_singleton cutoff entries hne t ht⟩

theorem calculate_lca_assignment_rule_witness :
    ((calculate_lca 1 [((95 : ℚ), "Gobius niger"), ((94 : ℚ), "Gobius cobitis")]).assignment =
        "dropped" ↔
      1 < (calculate_lca 1
        [((95 : ℚ), "Gobius niger"), ((94 : ℚ), "Gobius cobitis")]).included_taxa.card) ∧
    ((∃ t, (calculate_lca 1
          [((95 : ℚ), "Gobius niger"), ((94 : ℚ), "Gobius cobitis")]).included_taxa = {t} ∧
        (calculate_lca 1
          [((95 : ℚ), "Gobius niger"), ((94 : ℚ), "Gobius cobitis")]).assignment = t) ↔
      (calculate_lca 1
        [((95 : ℚ), "Gobius niger"), ((94 : ℚ), "Gobius cobitis")]).included_taxa.card = 1) :=
  calculate_lca_assignment_rule 1 [((95 : ℚ), "Gobius niger"), ((94 : ℚ), "Gobius cobitis")]
    (by decide) (by decide) (by decide)

/-- C3: the representative percentage is the exact arithmetic mean of the
percent identities of the included entries, one contribution per entry
occurrence (the filtered list keeps duplicate taxon names). -/
theorem calculate_lca_mean_occurrences (cutoff : ℚ) (entries : List (ℚ × String))
    (hne : entries ≠ []) :
    (calculate_lca cutoff entries).percentage =
      ((includedEntries cutoff entries).map Prod.fst).sum /
        (((includedEntries cutoff entries).map Prod.fst).length : ℚ) :=
  calc_percentage_eq cutoff entries hne

theorem calculate_lca_mean_occurrences_witness :
    [((95 : ℚ), "Gobius niger"), ((94 : ℚ), "Gobius niger")] ≠ ([] : List (ℚ × String)) ∧
    (calculate_lca 1 [((95 : ℚ), "Gobius niger"), ((94 : ℚ), "Gobius niger")]).percentage =
      ((includedEntries 1 [((95 : ℚ), "Gobius niger"), ((94 : ℚ), "Gobius niger")]).map
          Prod.fst).sum /
        (((includedEntries 1
            [((95 : ℚ), "Gobius niger"), ((94 : ℚ), "Gobius niger")]).map Prod.fst).length : ℚ) :=
  ⟨by decide, calculate_lca_mean_occurrences 1
    [((95 : ℚ), "Gobius niger"), ((94 : ℚ), "Gobius niger")] (by decide)⟩

/-- C4: the empty entry list yields exactly percentage 0, assignment
"no_hits" and an empty included-taxa set, as a normal result. -/
theorem calculate_lca_empty_input (cutoff : ℚ) :
    calculate_lca cutoff [] =
      { percentage := 0, assignment := "no_hits", included_taxa := ∅ } := rfl

/-- C10: the LCA consensus is order-independent: permuting the entry list
leaves the whole result (percentage, assignment, included taxa) unchanged. -/
theorem calculate_lca_perm_invariant (cutoff : ℚ) (l1 l2 : List (ℚ × String))
    (h : l1.Perm l2) : calculate_lca cutoff l1 = calculate_lca cutoff l2 := by
  rcases eq_or_ne l1 [] with rfl | h1
  · rw [h.symm.eq_nil]
  · have h2 : l2 ≠ [] := fun h0 => h1 (h0 ▸ h).eq_nil
    have hperm := includedEntries_perm cutoff h
    have htaxa : (calculate_lca cutoff l1).included_taxa =
        (calculate_lca cutoff l2).included_taxa := by
      rw [calc_taxa_eq cutoff l1 h1, calc_taxa_eq cutoff l2 h2]
      exact List.toFinset_eq_of_perm _ _ (hperm.map Prod.snd)
    have hperc : (calculate_lca cutoff l1).percentage =
        (calculate_lca cutoff l2).percentage := by
      rw [calc_percentage_eq cutoff l1 h1, calc_percentage_eq cutoff l2 h2,
        (hperm.map Prod.fst).sum_eq, (hperm.map Prod.fst).length_eq]
    have hassign : (calculate_lca cutoff l1).assignment =
        (calculate_lca cutoff l2).assignment := by
      by_cases hc : (calculate_lca cutoff l1).included_taxa.card = 1
      · obtain ⟨t, ht⟩ := Finset.card_eq_one.mp hc
        rw [calc_assign_singleton cutoff l1 h1 t ht,
          calc_assign_singleton cutoff l2 h2 t (htaxa ▸ ht)]
      · rw [calc_assign_dropped cutoff l1 h1 hc,
          calc_assign_dropped cutoff l2 h2 (htaxa ▸ hc)]
    exact LCAResult.ext hperc hassign htaxa

theorem calculate_lca_perm_invariant_witness :
    calculate_lca 1 [((95 : ℚ), "Gobius niger"), ((94 : ℚ), "Gobius cobitis")] =
      calculate_lca 1 [((94 : ℚ), "Gobius cobitis"), ((95 : ℚ), "Gobius niger")] :=
  calculate_lca_perm_invariant 1
    [((95 : ℚ), "Gobius niger"), ((94 : ℚ), "Gobius cobitis")]
    [((94 : ℚ), "Gobius cobitis"), ((95 : ℚ), "Gobius niger")] (by decide)


/-! ### `NCBITaxdumpParser.build_lineage` -/

/-- The in-memory taxonomy maps of `NCBITaxdumpParser`
(`taxid_to_parent`, `taxid_to_rank`, `taxid_to_name`), modelled as
association lists with first-match lookup. -/
structure Taxdump where
  taxid_to_parent : List (String × String)
  taxid_to_rank : List (String × String)
  taxid_to_name : List (String × String)
deriving DecidableEq, Repr

/-- Python dict lookup: `m.get(k)` / `m[k]` guarded by `k in m`. -/
def lookupStr (m : List (String × String)) (k : String) : Option String :=
  (m.find? fun p => p.1 == k).map Prod.snd

/-- The `lineage_data` dict of `build_lineage`: one optional slot per
recognised rank, all initialised to `None`. -/
structure LineageData where
  superkingdom : Option String
  kingdom : Option String
  phylum : Option String
  class_ : Option String
  order : Option String
  family : Option String
  genus : Option String
  species : Option String
deriving DecidableEq, Repr

def initLineage : LineageData := ⟨none, none, none, none, none, none, none, none⟩

/-- `if rank in lineage_data: lineage_data[rank] = name` — the store is
unconditional once the rank is recognised (it does not check whether the
slot is already filled). -/
def recordRank (data : LineageData) (rank name : String) : LineageData :=
  if rank = "superkingdom" then { data with superkingdom := some name }
  else if rank = "kingdom" then { data with kingdom := some name }
  else if rank = "phylum" then { data with phylum := some name }
  else if rank = "class" then { data with class_ := some name }
  else if rank = "order" then { data with order := some name }
  else if rank = "family" then { data with family := some name }
  else if rank = "genus" then { data with genus := some name }
  else if rank = "species" then { data with species := some name }
  else data

/-- The `while` loop of `build_lineage`, indexed by fuel; `none` means the
fuel ran out (the Python loop has no fuel, so `build_lineage` runs it with
enough fuel for the whole parent table and the termination theorem shows
that fuel is never exhausted).  The loop stops at an empty id, the root id
"1", an already-visited id, or an id with no parent entry; each step
records the node's rank/name pair when both are present, then moves to the
parent. -/
def buildLineageLoop (td : Taxdump) :
    Nat → String → List String → LineageData → Option LineageData
  | 0, _, _, _ => none
  | fuel + 1, current, visited, data =>
    if current = "" ∨ current = "1" ∨ current ∈ visited then some data
    else
      let visited' := current :: visited
      let data' :=
        match lookupStr td.taxid_to_rank current, lookupStr td.taxid_to_name current with
        | some rank, some name => recordRank data rank name
        | _, _ => data
      match lookupStr td.taxid_to_parent current with
      | some p => buildLineageLoop td fuel p visited' data'
      | none => some data'

/-- The distinct keys of the parent table. -/
def parentKeys (td : Taxdump) : List String :=
  (td.taxid_to_parent.map Prod.fst).dedup

def fuelBound (td : Taxdump) : Nat := (parentKeys td).length + 1

/-- Python truthiness fallback `x or default` on an optional string slot. -/
def orPyDefault (o : Option String) (dflt : String) : String :=
  match o with
  | some s => if s = "" then dflt else s
  | none => dflt

/-- `NCBITaxdumpParser.build_lineage` (without the memoisation cache, which
only replays previously computed results).  Returns `none` for an empty
taxid, the "N/A" sentinel, or a taxid absent from the parent table. -/
def build_lineage (td : Taxdump) (taxid : String) : Option TaxonomicLineage :=
  if taxid = "" ∨ taxid = "N/A" ∨ lookupStr td.taxid_to_parent taxid = none then none
  else
    match buildLineageLoop td (fuelBound td) taxid [] initLineage with
    | none => none
    | some data =>
      some { class_name := orPyDefault data.class_ "Unknown"
           , order := orPyDefault data.order "Unknown"
           , family := orPyDefault data.family "Unknown"
           , genus := orPyDefault data.genus "Unknown"
           , species := orPyDefault data.species
               ((lookupStr td.taxid_to_name taxid).getD "Unknown") }

/-! ### Helper lemmas for the traversal's termination -/

/-- The number of parent-table keys not yet visited. -/
def freshCount (td : Taxdump) (visited : List String) : Nat :=
  (parentKeys td).countP fun k => decide (k ∉ visited)

lemma countP_notMem_cons_lt {l : List String} {a : String} {v : List String}
    (ha : a ∈ l) (hv : a ∉ v) :
    l.countP (fun k => decide (k ∉ a :: v)) < l.countP (fun k => decide (k ∉ v)) := by
  induction l with
  | nil => cases ha
  | cons b t ih =>
    rw [List.countP_cons, List.countP_cons]
    by_cases hb : b = a
    · subst hb
      have h1 : (decide (b ∉ b :: v)) = false := by simp
      have h2 : (decide (b ∉ v)) = true := by simpa using hv
      rw [h1, h2]
      have hmono : t.countP (fun k => decide (k ∉ b :: v)) ≤
          t.countP (fun k => decide (k ∉ v)) := by
        apply List.countP_mono_left
        intro x _ hx
        simp only [decide_eq_true_eq] at hx ⊢
        exact fun hxv => hx (List.mem_cons_of_mem b hxv)
      simp only [Bool.false_eq_true, if_false, if_true]
      omega
    · have ha' : a ∈ t := by
        rcases List.mem_cons.mp ha with h | h
        · exact absurd h.symm hb
        · exact h
      have hsame : (decide (b ∉ a :: v)) = (decide (b ∉ v)) := by
        by_cases hbv : b ∈ v
        · simp [hbv]
        · simp [hbv, List.mem_cons, hb]
      rw [hsame]
      have := ih ha'
      omega

lemma freshCount_lt (td : Taxdump) {current : String} {visited : List String}
    (hc : current ∈ parentKeys td) (hv : current ∉ visited) :
    freshCount td (current :: visited) < freshCount td visited :=
  countP_notMem_cons_lt hc hv

lemma lookupStr_mem_keys {m : List (String × String)} {k v : String}
    (h : lookupStr m k = some v) : k ∈ m.map Prod.fst := by
  unfold lookupStr at h
  cases hf : m.find? fun p => p.1 == k with
  | none => rw [hf] at h; cases h
  | some pair =>
    have hk : pair.1 = k := by
      have := List.find?_some hf
      simpa using this
    exact hk ▸ List.mem_map_of_mem Prod.fst (List.mem_of_find?_eq_some hf)

lemma buildLineageLoop_some (td : Taxdump) :
    ∀ (fuel : Nat) (current : String) (visited : List String) (data : LineageData),
      freshCount td visited < fuel →
      ∃ r, buildLineageLoop td fuel current visited data = some r := by
  intro fuel
  induction fuel with
  | zero => exact fun current visited data h => absurd h (Nat.not_lt_zero _)
  | succ n ih =>
    intro current visited data h
    by_cases hstop : current = "" ∨ current = "1" ∨ current ∈ visited
    · exact ⟨data, by simp only [buildLineageLoop, if_pos hstop]⟩
    · cases hp : lookupStr td.taxid_to_parent current with
      | none =>
        refine ⟨(match lookupStr td.taxid_to_rank current, lookupStr td.taxid_to_name current with
          | some rank, some name => recordRank data rank name
          | _, _ => data), ?_⟩
        simp only [buildLineageLoop, if_neg hstop, hp]
      | some p =>
        have hc : current ∈ parentKeys td :=
          List.mem_dedup.mpr (lookupStr_mem_keys hp)
        have hv : current ∉ visited := by
          intro hmem
          exact hstop (Or.inr (Or.inr hmem))
        have hlt : freshCount td (current :: visited) < n := by
          have := freshCount_lt td hc hv
          omega
        obtain ⟨r, hr⟩ := ih p (current :: visited)
          (match lookupStr td.taxid_to_rank current, lookupStr td.taxid_to_name current with
            | some rank, some name => recordRank data rank name
            | _, _ => data) hlt
        refine ⟨r, ?_⟩
        simp only [buildLineageLoop, if_neg hstop, hp]
        exact hr


/-! ### Claims about the lineage traversal -/

/-- C6: for every taxdump — including parent tables containing cycles —
the lineage traversal terminates: run with fuel covering the whole parent
table, the loop always reaches one of its stopping conditions (empty id,
root id "1", already-visited id, or no parent entry) instead of exhausting
the fuel, and `build_lineage` returns a lineage for exactly the taxids
passing its entry guard (non-empty, not "N/A", present in the parent
table). -/
theorem build_lineage_terminates (td : Taxdump) :
    (∀ (current : String) (visited : List String) (data : LineageData),
      ∃ r, buildLineageLoop td (fuelBound td) current visited data = some r) ∧
    (∀ taxid : String, build_lineage td taxid = none ↔
      (taxid = "" ∨ taxid = "N/A" ∨ lookupStr td.taxid_to_parent taxid = none)) := by
  have hloop : ∀ (current : String) (visited : List String) (data : LineageData),
      ∃ r, buildLineageLoop td (fuelBound td) current visited data = some r := by
    intro current visited data
    apply buildLineageLoop_some
    have hle : freshCount td visited ≤ (parentKeys td).length :=
      List.countP_le_length _
    unfold fuelBound
    omega
  refine ⟨hloop, ?_⟩
  intro taxid
  constructor
  · intro hnone
    by_contra hguard
    unfold build_lineage at hnone
    rw [if_neg hguard] at hnone
    obtain ⟨r, hr⟩ := hloop taxid [] initLineage
    rw [hr] at hnone
    simp at hnone
  · intro hguard
    unfold build_lineage
    rw [if_pos hguard]

/-- A malformed node graph in which two nodes along one path both carry
rank "genus": node "2" (visited first) is named "GenusA"; its parent,
node "3" (visited later, nearer the root), is named "GenusB". -/
def twoGenusTd : Taxdump :=
  { taxid_to_parent := [("2", "3"), ("3", "1")]
  , taxid_to_rank := [("2", "genus"), ("3", "genus")]
  , taxid_to_name := [("2", "GenusA"), ("3", "GenusB")] }

/-- C5 counterexample: traversing from node "2" first records genus
"GenusA", then node "3" — encountered later on the path toward the root —
OVERWRITES the already-filled genus slot, so the returned lineage's genus
is "GenusB", not the first occurrence "GenusA". -/
theorem build_lineage_overwrite_cex :
    lookupStr twoGenusTd.taxid_to_rank "2" = some "genus" ∧
    lookupStr twoGenusTd.taxid_to_name "2" = some "GenusA" ∧
    (build_lineage twoGenusTd "2").map TaxonomicLineage.genus = some "GenusB" := by
  decide

/-- C5 (amended): a rank slot already filled IS overwritten whenever a node
encountered later on the path carries the same recognised rank —
`recordRank` stores the new name unconditionally, so the last occurrence of
each rank along the traversal wins, not the first. -/
theorem recordRank_last_wins (data : LineageData) (name : String) :
    (recordRank data "class" name).class_ = some name ∧
    (recordRank data "order" name).order = some name ∧
    (recordRank data "family" name).family = some name ∧
    (recordRank data "genus" name).genus = some name ∧
    (recordRank data "species" name).species = some name := by
  refine ⟨?_, ?_, ?_, ?_, ?_⟩ <;> simp [recordRank]


/-! ### `TaxonomicAssigner` -/

/-- Generic Python dict lookup over an association list. -/
def lookupTab {β : Type} (m : List (String × β)) (k : String) : Option β :=
  (m.find? fun p => p.1 == k).map Prod.snd

/-- Lookup in a speccode-keyed table. -/
def lookupCode {β : Type} (m : List (Nat × β)) (k : Nat) : Option β :=
  (m.find? fun p => p.1 == k).map Prod.snd

/-- The lookup tables handed to `TaxonomicAssigner`: the Fishbase genus
table (genus → (family, order, class)), the Fishbase speccode table
(SpecCode → canonical "Genus species"), the Fishbase synonym table
("SynGenus SynSpecies" → SpecCode), the WoRMS genus table, and the NCBI
taxdump. -/
structure AssignerData where
  fishbase_genera : List (String × (String × String × String))
  fishbase_speccode : List (Nat × String)
  fishbase_synonyms : List (String × Nat)
  worms_genera : List (String × (String × String × String))
  ncbi : Taxdump

/-- Python `s.split(' ', 1)` for a canonical species string: split off the
first space-separated word. -/
def splitFirstSpace (s : String) : String × String :=
  match s.splitOn " " with
  | [] => (s, "")
  | [g] => (g, "")
  | g :: rest => (g, String.intercalate " " rest)

/-- The direct genus scan shared by `_search_fishbase` and `_search_worms`:
iterate over `elements[:-1]` (so a match needs a following token); on the
first token present in the genus table, take the next token as the species
epithet and build the lineage from the genus row. -/
def directGenusScan (genera : List (String × (String × String × String))) :
    List String → Option (String × String × TaxonomicLineage)
  | [] => none
  | [_] => none
  | x :: y :: rest =>
    match lookupTab genera x with
    | some (family, order, class_name) =>
      some (x, y,
        { class_name := class_name, order := order, family := family,
          genus := x, species := x ++ " " ++ y })
    | none => directGenusScan genera (y :: rest)

/-- The synonym bigram scan of `_search_fishbase`: for each adjacent token
pair, look the space-joined pair up in the synonym table, resolve its
speccode to the canonical species name, and build the lineage from the
canonical genus.  (Python's `self.fishbase_genera[genus]` raises
`KeyError` when the canonical genus is missing from the genus table; the
raise is modelled as a failed scan.) -/
def synonymScan (d : AssignerData) :
    List String → Option (String × String × TaxonomicLineage)
  | [] => none
  | [_] => none
  | x :: y :: rest =>
    match lookupTab d.fishbase_synonyms (x ++ " " ++ y) with
    | some speccode =>
      match lookupCode d.fishbase_speccode speccode with
      | some correct_species =>
        match lookupTab d.fishbase_genera (splitFirstSpace correct_species).1 with
        | some (family, order, class_name) =>
          some ((splitFirstSpace correct_species).1, (splitFirstSpace correct_species).2,
            { class_name := class_name, order := order, family := family,
              genus := (splitFirstSpace correct_species).1, species := correct_species })
        | none => none
      | none => synonymScan d (y :: rest)
    | none => synonymScan d (y :: rest)

/-- `TaxonomicAssigner._search_fishbase`: the direct genus scan first, then
the synonym scan. -/
def search_fishbase (d : AssignerData) (elements : List String) :
    Option (String × String × TaxonomicLineage) :=
  match directGenusScan d.fishbase_genera elements with
  | some r => some r
  | none => synonymScan d elements

/-- `TaxonomicAssigner._search_worms`: the direct genus scan over the WoRMS
genus table (no synonym table). -/
def search_worms (d : AssignerData) (elements : List String) :
    Option (String × String × TaxonomicLineage) :=
  directGenusScan d.worms_genera elements

/-- The caller's `if genus:` check — a `None` result or an empty genus
string counts as a failed search; otherwise the result is tagged with its
source. -/
def truthyResult (src : String) (r : Option (String × String × TaxonomicLineage)) :
    Option (String × String × String × TaxonomicLineage) :=
  match r with
  | some (genus, species, lineage) =>
    if genus = "" then none else some (genus, species, src, lineage)
  | none => none

/-- `TaxonomicAssigner.find_species_info`: fixed priority order — Fishbase
(direct genus scan, then synonym scan), then WoRMS, then the NCBI
taxonomy-id lookup (`if taxid:` skips `None` and the empty string); the
first success wins. -/
def find_species_info (d : AssignerData) (elements : List String)
    (taxid : Option String) :
    Option (String × String × String × TaxonomicLineage) :=
  match truthyResult "fishbase" (search_fishbase d elements) with
  | some r => some r
  | none =>
    match truthyResult "worms" (search_worms d elements) with
    | some r => some r
    | none =>
      match taxid with
      | some t =>
        if t = "" then none
        else
          match build_lineage d.ncbi t with
          | some lineage => some (lineage.genus, lineage.species, "ncbi", lineage)
          | none => none
      | none => none

/-- The legacy script's main-loop genus/synonym scan
(`calculateLCAWithFishbase.py`, main loop): walk the tokens; a token in the
genus set takes the next token as the species (`ll[index+1]`, which raises
`IndexError` when the genus token is the last token — modelled as
`.error`); otherwise, when not at the last token, try the space-joined
bigram against the synonym table, resolving via the speccode table (a
missing speccode raises `KeyError`; the canonical name is split on its
first space).  `.ok none` means the loop found nothing (the script then
fails its `assert found_genus`). -/
def legacyGenusScan (all_genera : List String) (all_synonyms : List (String × Nat))
    (speccode_to_row : List (Nat × String)) :
    List String → Except String (Option (String × String))
  | [] => .ok none
  | x :: rest =>
    if x ∈ all_genera then
      match rest with
      | [] => .error "IndexError"
      | y :: _ => .ok (some (x, y))
    else
      match rest with
      | [] => .ok none
      | y :: _ =>
        match lookupTab all_synonyms (x ++ " " ++ y) with
        | some code =>
          match lookupCode speccode_to_row code with
          | some correct_species => .ok (some (splitFirstSpace correct_species))
          | none => .error "KeyError"
        | none => legacyGenusScan all_genera all_synonyms speccode_to_row rest

/-! ### Helper lemmas for the resolver scans -/

lemma directGenusScan_succeeds (genera : List (String × (String × String × String)))
    (elements : List String)
    (hex : ∃ i, i + 1 < elements.length ∧ lookupTab genera (elements.getD i "") ≠ none) :
    ∃ g s lg, directGenusScan genera elements = some (g, s, lg) ∧ g ∈ elements := by
  induction elements with
  | nil =>
    obtain ⟨i, hi, _⟩ := hex
    simp at hi
  | cons x tail ih =>
    cases tail with
    | nil =>
      obtain ⟨i, hi, _⟩ := hex
      simp at hi
    | cons y rest =>
      cases hx : lookupTab genera x with
      | some t =>
        obtain ⟨family, order, class_name⟩ := t
        refine ⟨x, y,
          { class_name := class_name, order := order, family := family,
            genus := x, species := x ++ " " ++ y }, ?_,
          List.mem_cons_self x (y :: rest)⟩
        simp only [directGenusScan, hx]
      | none =>
        have hex' : ∃ i, i + 1 < (y :: rest).length ∧
            lookupTab genera ((y :: rest).getD i "") ≠ none := by
          obtain ⟨i, hi, hne⟩ := hex
          cases i with
          | zero => exact absurd hx (by simpa using hne)
          | succ j =>
            refine ⟨j, ?_, ?_⟩
            · simpa [Nat.succ_lt_succ_iff] using hi
            · simpa using hne
        obtain ⟨g, s, lg, hscan, hg⟩ := ih hex'
        refine ⟨g, s, lg, ?_, List.mem_cons_of_mem x hg⟩
        simp only [directGenusScan, hx]
        exact hscan

lemma directGenusScan_none (genera : List (String × (String × String × String)))
    (elements : List String)
    (hno : ∀ i, i + 1 < elements.length → lookupTab genera (elements.getD i "") = none) :
    directGenusScan genera elements = none := by
  induction elements with
  | nil => rfl
  | cons x tail ih =>
    cases tail with
    | nil => rfl
    | cons y rest =>
      have hx : lookupTab genera x = none := by
        have := hno 0 (by simp)
        simpa using this
      simp only [directGenusScan, hx]
      apply ih
      intro i hi
      have := hno (i + 1) (by simpa [Nat.succ_lt_succ_iff] using hi)
      simpa using this

lemma search_fishbase_falls_through (d : AssignerData) (elements : List String)
    (hno : ∀ i, i + 1 < elements.length →
      lookupTab d.fishbase_genera (elements.getD i "") = none) :
    search_fishbase d elements = synonymScan d elements := by
  unfold search_fishbase
  rw [directGenusScan_none d.fishbase_genera elements hno]


/-! ### Claims about the species resolver -/

/-- C7: the resolver's fixed priority order — whenever some token (followed
by at least one more token) is a known Fishbase genus, `find_species_info`
resolves with source "fishbase", for every WoRMS table and taxid; in
particular a genus known to both Fishbase and WoRMS resolves via Fishbase.
(Tokens come from `str.split()` and are therefore non-empty.) -/
theorem find_species_info_priority (d : AssignerData) (elements : List String)
    (taxid : Option String) (i : Nat)
    (hi : i + 1 < elements.length)
    (hfb : lookupTab d.fishbase_genera (elements.getD i "") ≠ none)
    (_hwo : lookupTab d.worms_genera (elements.getD i "") ≠ none)
    (hne : "" ∉ elements) :
    ∃ g s lg, find_species_info d elements taxid = some (g, s, "fishbase", lg) := by
  obtain ⟨g, s, lg, hscan, hg⟩ :=
    directGenusScan_succeeds d.fishbase_genera elements ⟨i, hi, hfb⟩
  have hgne : g ≠ "" := fun h0 => hne (h0 ▸ hg)
  refine ⟨g, s, lg, ?_⟩
  unfold find_species_info search_fishbase truthyResult
  rw [hscan]
  simp [hgne]

/-- A small concrete table set: the genus "Gobius" is known to both
reference sources, with different lineages. -/
def exAssigner : AssignerData :=
  { fishbase_genera := [("Gobius", ("Gobiidae", "Perciformes", "Actinopterygii"))]
  , fishbase_speccode := [(123, "Gobius niger")]
  , fishbase_synonyms := [("Gobius old_name", 123)]
  , worms_genera := [("Gobius", ("GobiidaeW", "PerciformesW", "ActinopterygiiW"))]
  , ncbi := ⟨[], [], []⟩ }

theorem find_species_info_priority_witness :
    ∃ g s lg, find_species_info exAssigner ["x", "Gobius", "niger", "y"] none =
      some (g, s, "fishbase", lg) :=
  find_species_info_priority exAssigner ["x", "Gobius", "niger", "y"] none 1
    (by decide) (by decide) (by decide) (by decide)

/-- The rewritten `_search_fishbase` scans `elements[:-1]`, so a known
genus in last position is not a direct match (here: the scan returns
`none` and the strategy falls through). -/
lemma directGenusScan_last_position_example :
    directGenusScan exAssigner.fishbase_genera ["ASV1", "Gobius"] = none ∧
    search_fishbase exAssigner ["ASV1", "Gobius"] =
      synonymScan exAssigner ["ASV1", "Gobius"] := by
  constructor
  · decide
  · refine search_fishbase_falls_through exAssigner ["ASV1", "Gobius"] ?_
    intro i hi
    have h2 : i + 1 < 2 := by simpa using hi
    have h0 : i = 0 := by omega
    subst h0
    decide

/-- C9: the legacy script's genus scan reads `ll[index+1]` without a bounds
check in its genus branch, so a known genus token in last position raises
`IndexError` (modelled as `.error "IndexError"`) instead of falling through
to the synonym scan — here evaluated at the failing input: genus set
{"Gobius"}, token list ["ASV1", "Gobius"]. -/
theorem legacy_scan_last_genus_crash :
    legacyGenusScan ["Gobius"] [] [] ["ASV1", "Gobius"] = .error "IndexError" := rfl


/-! ### `BLASTLCAAnalyzer.calculate_lca_assignments` — per-rank collection -/

/-- The per-rank observation lists built for one ASV. -/
structure RankHits where
  species_hits : List (ℚ × String)
  genus_hits : List (ℚ × String)
  family_hits : List (ℚ × String)
  order_hits : List (ℚ × String)
  class_hits : List (ℚ × String)
deriving DecidableEq, Repr

def emptyRankHits : RankHits := ⟨[], [], [], [], []⟩

/-- One iteration of the `for rank, name in lineage_list` loop: an empty
name is skipped (`if not name: continue` — and only an empty name; the
sentinel "Unknown" is a non-empty string); otherwise the (pident, name)
pair is appended to the matching rank's list. -/
def addObservation (r : RankHits) (pident : ℚ) (rank name : String) : RankHits :=
  if name = "" then r
  else if rank = "S" then { r with species_hits := r.species_hits ++ [(pident, name)] }
  else if rank = "G" then { r with genus_hits := r.genus_hits ++ [(pident, name)] }
  else if rank = "F" then { r with family_hits := r.family_hits ++ [(pident, name)] }
  else if rank = "O" then { r with order_hits := r.order_hits ++ [(pident, name)] }
  else if rank = "C" then { r with class_hits := r.class_hits ++ [(pident, name)] }
  else r

/-- Processing one hit: iterate over the lineage's (rank, name) list. -/
def addHit (r : RankHits) (pident : ℚ) (lineage : TaxonomicLineage) : RankHits :=
  lineage.to_list.foldl (fun acc rn => addObservation acc pident rn.1 rn.2) r

/-- The observation-collection loop of
`BLASTLCAAnalyzer.calculate_lca_assignments` over one ASV's hits, each hit
a (source, pident, lineage) triple. -/
def collectRankHits (hits : List (String × ℚ × TaxonomicLineage)) : RankHits :=
  hits.foldl (fun acc h => addHit acc h.2.1 h.2.2) emptyRankHits

lemma addObservation_class_hits (r : RankHits) (p : ℚ) (rank name : String) :
    (addObservation r p rank name).class_hits =
      if rank = "C" ∧ name ≠ "" then r.class_hits ++ [(p, name)] else r.class_hits := by
  unfold addObservation
  split_ifs <;> simp_all

lemma addObservation_order_hits (r : RankHits) (p : ℚ) (rank name : String) :
    (addObservation r p rank name).order_hits =
      if rank = "O" ∧ name ≠ "" then r.order_hits ++ [(p, name)] else r.order_hits := by
  unfold addObservation
  split_ifs <;> simp_all

lemma addObservation_family_hits (r : RankHits) (p : ℚ) (rank name : String) :
    (addObservation r p rank name).family_hits =
      if rank = "F" ∧ name ≠ "" then r.family_hits ++ [(p, name)] else r.family_hits := by
  unfold addObservation
  split_ifs <;> simp_all

lemma addObservation_genus_hits (r : RankHits) (p : ℚ) (rank name : String) :
    (addObservation r p rank name).genus_hits =
      if rank = "G" ∧ name ≠ "" then r.genus_hits ++ [(p, name)] else r.genus_hits := by
  unfold addObservation
  split_ifs <;> simp_all

lemma addObservation_species_hits (r : RankHits) (p : ℚ) (rank name : String) :
    (addObservation r p rank name).species_hits =
      if rank = "S" ∧ name ≠ "" then r.species_hits ++ [(p, name)] else r.species_hits := by
  unfold addObservation
  split_ifs <;> simp_all

lemma addHit_class_hits (r : RankHits) (p : ℚ) (lg : TaxonomicLineage) :
    (addHit r p lg).class_hits =
      if lg.class_name = "" then r.class_hits else r.class_hits ++ [(p, lg.class_name)] := by
  by_cases h : lg.class_name = "" <;>
    simp [addHit, TaxonomicLineage.to_list, addObservation_class_hits, h]

lemma addHit_order_hits (r : RankHits) (p : ℚ) (lg : TaxonomicLineage) :
    (addHit r p lg).order_hits =
      if lg.order = "" then r.order_hits else r.order_hits ++ [(p, lg.order)] := by
  by_cases h : lg.order = "" <;>
    simp [addHit, TaxonomicLineage.to_list, addObservation_order_hits, h]

lemma addHit_family_hits (r : RankHits) (p : ℚ) (lg : TaxonomicLineage) :
    (addHit r p lg).family_hits =
      if lg.family = "" then r.family_hits else r.family_hits ++ [(p, lg.family)] := by
  by_cases h : lg.family = "" <;>
    simp [addHit, TaxonomicLineage.to_list, addObservation_family_hits, h]

lemma addHit_genus_hits (r : RankHits) (p : ℚ) (lg : TaxonomicLineage) :
    (addHit r p lg).genus_hits =
      if lg.genus = "" then r.genus_hits else r.genus_hits ++ [(p, lg.genus)] := by
  by_cases h : lg.genus = "" <;>
    simp [addHit, TaxonomicLineage.to_list, addObservation_genus_hits, h]

lemma addHit_species_hits (r : RankHits) (p : ℚ) (lg : TaxonomicLineage) :
    (addHit r p lg).species_hits =
      if lg.species = "" then r.species_hits else r.species_hits ++ [(p, lg.species)] := by
  by_cases h : lg.species = "" <;>
    simp [addHit, TaxonomicLineage.to_list, addObservation_species_hits, h]

lemma collect_mem_class_hits (hits : List (String × ℚ × TaxonomicLineage))
    (r : RankHits) (x : ℚ × String) :
    (x ∈ (hits.foldl (fun acc h => addHit acc h.2.1 h.2.2) r).class_hits ↔
      x ∈ r.class_hits ∨ ∃ h ∈ hits, h.2.2.class_name ≠ "" ∧ x = (h.2.1, h.2.2.class_name)) := by
  induction hits generalizing r with
  | nil => simp
  | cons hd tl ih =>
    rw [List.foldl_cons, ih, addHit_class_hits]
    by_cases hv : hd.2.2.class_name = ""
    · simp only [if_pos hv, List.mem_cons]
      constructor
      · rintro (hx | ⟨h, hh, hne, hxe⟩)
        · exact Or.inl hx
        · exact Or.inr ⟨h, Or.inr hh, hne, hxe⟩
      · rintro (hx | ⟨h, hh | hh, hne, hxe⟩)
        · exact Or.inl hx
        · exact absurd hv (hh ▸ hne)
        · exact Or.inr ⟨h, hh, hne, hxe⟩
    · simp only [if_neg hv, List.mem_append, List.mem_cons, List.not_mem_nil, or_false]
      constructor
      · rintro ((hx | hx) | ⟨h, hh, hne, hxe⟩)
        · exact Or.inl hx
        · exact Or.inr ⟨hd, Or.inl rfl, hv, hx⟩
        · exact Or.inr ⟨h, Or.inr hh, hne, hxe⟩
      · rintro (hx | ⟨h, hh | hh, hne, hxe⟩)
        · exact Or.inl (Or.inl hx)
        · exact Or.inl (Or.inr (hh ▸ hxe))
        · exact Or.inr ⟨h, hh, hne, hxe⟩

lemma collect_mem_order_hits (hits : List (String × ℚ × TaxonomicLineage))
    (r : RankHits) (x : ℚ × String) :
    (x ∈ (hits.foldl (fun acc h => addHit acc h.2.1 h.2.2) r).order_hits ↔
      x ∈ r.order_hits ∨ ∃ h ∈ hits, h.2.2.order ≠ "" ∧ x = (h.2.1, h.2.2.order)) := by
  induction hits generalizing r with
  | nil => simp
  | cons hd tl ih =>
    rw [List.foldl_cons, ih, addHit_order_hits]
    by_cases hv : hd.2.2.order = ""
    · simp only [if_pos hv, List.mem_cons]
      constructor
      · rintro (hx | ⟨h, hh, hne, hxe⟩)
        · exact Or.inl hx
        · exact Or.inr ⟨h, Or.inr hh, hne, hxe⟩
      · rintro (hx | ⟨h, hh | hh, hne, hxe⟩)
        · exact Or.inl hx
        · exact absurd hv (hh ▸ hne)
        · exact Or.inr ⟨h, hh, hne, hxe⟩
    · simp only [if_neg hv, List.mem_append, List.mem_cons, List.not_mem_nil, or_false]
      constructor
      · rintro ((hx | hx) | ⟨h, hh, hne, hxe⟩)
        · exact Or.inl hx
        · exact Or.inr ⟨hd, Or.inl rfl, hv, hx⟩
        · exact Or.inr ⟨h, Or.inr hh, hne, hxe⟩
      · rintro (hx | ⟨h, hh | hh, hne, hxe⟩)
        · exact Or.inl (Or.inl hx)
        · exact Or.inl (Or.inr (hh ▸ hxe))
        · exact Or.inr ⟨h, hh, hne, hxe⟩

lemma collect_mem_family_hits (hits : List (String × ℚ × TaxonomicLineage))
    (r : RankHits) (x : ℚ × String) :
    (x ∈ (hits.foldl (fun acc h => addHit acc h.2.1 h.2.2) r).family_hits ↔
      x ∈ r.family_hits ∨ ∃ h ∈ hits, h.2.2.family ≠ "" ∧ x = (h.2.1, h.2.2.family)) := by
  induction hits generalizing r with
  | nil => simp
  | cons hd tl ih =>
    rw [List.foldl_cons, ih, addHit_family_hits]
    by_cases hv : hd.2.2.family = ""
    · simp only [if_pos hv, List.mem_cons]
      constructor
      · rintro (hx | ⟨h, hh, hne, hxe⟩)
        · exact Or.inl hx
        · exact Or.inr ⟨h, Or.inr hh, hne, hxe⟩
      · rintro (hx | ⟨h, hh | hh, hne, hxe⟩)
        · exact Or.inl hx
        · exact absurd hv (hh ▸ hne)
        · exact Or.inr ⟨h, hh, hne, hxe⟩
    · simp only [if_neg hv, List.mem_append, List.mem_cons, List.not_mem_nil, or_false]
      constructor
      · rintro ((hx | hx) | ⟨h, hh, hne, hxe⟩)
        · exact Or.inl hx
        · exact Or.inr ⟨hd, Or.inl rfl, hv, hx⟩
        · exact Or.inr ⟨h, Or.inr hh, hne, hxe⟩
      · rintro (hx | ⟨h, hh | hh, hne, hxe⟩)
        · exact Or.inl (Or.inl hx)
        · exact Or.inl (Or.inr (hh ▸ hxe))
        · exact Or.inr ⟨h, hh, hne, hxe⟩

lemma collect_mem_genus_hits (hits : List (String × ℚ × TaxonomicLineage))
    (r : RankHits) (x : ℚ × String) :
    (x ∈ (hits.foldl (fun acc h => addHit acc h.2.1 h.2.2) r).genus_hits ↔
      x ∈ r.genus_hits ∨ ∃ h ∈ hits, h.2.2.genus ≠ "" ∧ x = (h.2.1, h.2.2.genus)) := by
  induction hits generalizing r with
  | nil => simp
  | cons hd tl ih =>
    rw [List.foldl_cons, ih, addHit_genus_hits]
    by_cases hv : hd.2.2.genus = ""
    · simp only [if_pos hv, List.mem_cons]
      constructor
      · rintro (hx | ⟨h, hh, hne, hxe⟩)
        · exact Or.inl hx
        · exact Or.inr ⟨h, Or.inr hh, hne, hxe⟩
      · rintro (hx | ⟨h, hh | hh, hne, hxe⟩)
        · exact Or.inl hx
        · exact absurd hv (hh ▸ hne)
        · exact Or.inr ⟨h, hh, hne, hxe⟩
    · simp only [if_neg hv, List.mem_append, List.mem_cons, List.not_mem_nil, or_false]
      constructor
      · rintro ((hx | hx) | ⟨h, hh, hne, hxe⟩)
        · exact Or.inl hx
        · exact Or.inr ⟨hd, Or.inl rfl, hv, hx⟩
        · exact Or.inr ⟨h, Or.inr hh, hne, hxe⟩
      · rintro (hx | ⟨h, hh | hh, hne, hxe⟩)
        · exact Or.inl (Or.inl hx)
        · exact Or.inl (Or.inr (hh ▸ hxe))
        · exact Or.inr ⟨h, hh, hne, hxe⟩

lemma collect_mem_species_hits (hits : List (String × ℚ × TaxonomicLineage))
    (r : RankHits) (x : ℚ × String) :
    (x ∈ (hits.foldl (fun acc h => addHit acc h.2.1 h.2.2) r).species_hits ↔
      x ∈ r.species_hits ∨ ∃ h ∈ hits, h.2.2.species ≠ "" ∧ x = (h.2.1, h.2.2.species)) := by
  induction hits generalizing r with
  | nil => simp
  | cons hd tl ih =>
    rw [List.foldl_cons, ih, addHit_species_hits]
    by_cases hv : hd.2.2.species = ""
    · simp only [if_pos hv, List.mem_cons]
      constructor
      · rintro (hx | ⟨h, hh, hne, hxe⟩)
        · exact Or.inl hx
        · exact Or.inr ⟨h, Or.inr hh, hne, hxe⟩
      · rintro (hx | ⟨h, hh | hh, hne, hxe⟩)
        · exact Or.inl hx
        · exact absurd hv (hh ▸ hne)
        · exact Or.inr ⟨h, hh, hne, hxe⟩
    · simp only [if_neg hv, List.mem_append, List.mem_cons, List.not_mem_nil, or_false]
      constructor
      · rintro ((hx | hx) | ⟨h, hh, hne, hxe⟩)
        · exact Or.inl hx
        · exact Or.inr ⟨hd, Or.inl rfl, hv, hx⟩
        · exact Or.inr ⟨h, Or.inr hh, hne, hxe⟩
      · rintro (hx | ⟨h, hh | hh, hne, hxe⟩)
        · exact Or.inl (Or.inl hx)
        · exact Or.inl (Or.inr (hh ▸ hxe))
        · exact Or.inr ⟨h, hh, hne, hxe⟩


/-! ### Claims about the per-rank observation collection -/

/-- C8 (amended): when the per-ASV observations are collected for each
rank, only an EMPTY lineage field contributes no (pident, name)
observation; any non-empty field value — including the sentinel
"Unknown" — contributes an observation to its rank's list. -/
theorem collect_excludes_only_empty (hits : List (String × ℚ × TaxonomicLineage))
    (p : ℚ) (n : String) :
    ((p, n) ∈ (collectRankHits hits).class_hits ↔
      ∃ h ∈ hits, h.2.2.class_name ≠ "" ∧ p = h.2.1 ∧ n = h.2.2.class_name) ∧
    ((p, n) ∈ (collectRankHits hits).order_hits ↔
      ∃ h ∈ hits, h.2.2.order ≠ "" ∧ p = h.2.1 ∧ n = h.2.2.order) ∧
    ((p, n) ∈ (collectRankHits hits).family_hits ↔
      ∃ h ∈ hits, h.2.2.family ≠ "" ∧ p = h.2.1 ∧ n = h.2.2.family) ∧
    ((p, n) ∈ (collectRankHits hits).genus_hits ↔
      ∃ h ∈ hits, h.2.2.genus ≠ "" ∧ p = h.2.1 ∧ n = h.2.2.genus) ∧
    ((p, n) ∈ (collectRankHits hits).species_hits ↔
      ∃ h ∈ hits, h.2.2.species ≠ "" ∧ p = h.2.1 ∧ n = h.2.2.species) := by
  refine ⟨?_, ?_, ?_, ?_, ?_⟩
  · rw [collectRankHits, collect_mem_class_hits]
    simp [emptyRankHits, Prod.ext_iff]
  · rw [collectRankHits, collect_mem_order_hits]
    simp [emptyRankHits, Prod.ext_iff]
  · rw [collectRankHits, collect_mem_family_hits]
    simp [emptyRankHits, Prod.ext_iff]
  · rw [collectRankHits, collect_mem_genus_hits]
    simp [emptyRankHits, Prod.ext_iff]
  · rw [collectRankHits, collect_mem_species_hits]
    simp [emptyRankHits, Prod.ext_iff]

/-- An NCBI-style lineage whose order could not be resolved: the slot holds
the sentinel "Unknown". -/
def unknownOrderLineage : TaxonomicLineage :=
  { class_name := "Actinopterygii", order := "Unknown", family := "Gobiidae",
    genus := "Gobius", species := "Gobius niger" }

/-- C8 counterexample: a lineage field holding "Unknown" DOES contribute an
observation — the order-rank list receives (95, "Unknown"), and the
consensus over that rank is computed from it (assignment "Unknown") — so
"Unknown" is not excluded from the observation set as the claim states. -/
theorem unknown_counts_as_vote_cex :
    (collectRankHits [("ncbi", (95 : ℚ), unknownOrderLineage)]).order_hits =
      [((95 : ℚ), "Unknown")] ∧
    (calculate_lca 1 [((95 : ℚ), "Unknown")]).assignment = "Unknown" := by
  constructor
  · decide
  · have h : calculate_lca 1 [((95 : ℚ), "Unknown")] =
        { percentage := 95, assignment := "Unknown", included_taxa := {"Unknown"} } := by
      norm_num [calculate_lca, pySorted, List.insertionSort, List.orderedInsert, pyTupleLe,
        List.filter, List.dedup, List.headD, List.pwFilter]
    rw [h]

end LCAFishbase
